import Mathlib

/-!
Verification of `sawtooth_validator/journal/block_validator.py`.

The development shallowly embeds the block validation engine:

* the data model (`BlockStatus`, `Block`, `BlockW`, `Batch`);
* the container collaborators (`ConcurrentSet`, `ConcurrentMultiMap`,
  the block cache), modelled from the spec since their sources are not
  part of the repository snapshot;
* `look_ahead`;
* `_validate_batches_in_block` with an instrumented scheduler trace;
* `validate_block`;
* the pipeline coordinator: `submit_blocks_for_verification`,
  `_release_pending` (the cascade resolver) and a sequential
  interpreter of the worker loop for callback accounting.

Machine identifiers, block identifiers and state roots are modelled as
`Nat`.  Exceptions are modelled with `Except` over an explicit exception
type.  Python `while` loops over a shrinking work queue are rendered as
fuel recursion where the fuel is seeded with the exact loop measure
(total multimap size plus queue length, which decreases by exactly one
per iteration), so the fuelled function agrees with the source loop on
every input.
-/

namespace BlockValidation

/-- Block status, a closed variant; `BlockWrapper` objects start out
with status `Unknown`. -/
inductive BlockStatus where
  | Unknown : BlockStatus
  | Valid : BlockStatus
  | Invalid : BlockStatus
deriving DecidableEq, Repr

/-- Exceptions that flow through the validator.  `dupBatch`, `dupTxn`
and `missingDep` are the `chain_commit_state` exceptions;
`validationFailure` and `validationError` are `BlockValidationFailure`
and `BlockValidationError`; `otherExc` stands for any other unexpected
exception. -/
inductive PyExc where
  | dupBatch : PyExc
  | dupTxn : PyExc
  | missingDep : PyExc
  | validationFailure : PyExc
  | validationError : PyExc
  | otherExc : PyExc
deriving DecidableEq, Repr

deriving instance DecidableEq for Except

/-- A block as seen by the pipeline coordinator: its content-hash
identifier and the identifier of its predecessor. -/
structure Block where
  identifier : Nat
  previous_block_id : Nat
deriving DecidableEq, Repr

/-- A batch: its header signature (identifier) and the identifiers of
its transactions. -/
structure Batch where
  header_signature : Nat
  transactions : List Nat
deriving DecidableEq, Repr

/-- A block wrapper as seen by `validate_block` and
`_validate_batches_in_block`: identifiers, block number, batches, the
declared target state root, the mutable status and the fields the
engine appends to (`execution_results`, `num_transactions`). -/
structure BlockW where
  identifier : Nat
  previous_block_id : Nat
  block_num : Nat
  batches : List Batch
  state_root_hash : Nat
  status : BlockStatus
  execution_results : List Nat
  num_transactions : Nat
deriving DecidableEq, Repr

/-- The sentinel predecessor identifier of the genesis block. -/
def NULL_BLOCK_IDENTIFIER : Nat := 0

/-- The well-known empty merkle root used as the previous state root of
genesis. -/
def INIT_ROOT_KEY : Nat := 1

/-! ### Pass-through iteration helper (`look_ahead`)

`look_ahead` pulls the first value with `next(it)`; on an empty iterable
that `next` raises `StopIteration`, which escapes the generator (the
source carries a pylint suppression documenting exactly this), so the
empty case is an error rather than an empty stream. -/

/-- The loop of `look_ahead` once the first element has been pulled:
report every held value paired with `true` while more remain, and the
last one paired with `false`. -/
def look_ahead_go {α : Type} (last : α) : List α → List (α × Bool)
  | [] => [(last, false)]
  | v :: rest => (last, true) :: look_ahead_go v rest

/-- `look_ahead`: pass through all values, augmented with whether more
values follow.  On an empty iterable the initial `next` raises. -/
def look_ahead {α : Type} : List α → Except PyExc (List (α × Bool))
  | [] => .error .otherExc
  | x :: xs => .ok (look_ahead_go x xs)

theorem look_ahead_go_spec {α : Type} (last : α) (xs : List α) :
    look_ahead_go last xs =
      ((last :: xs).dropLast.map (fun a => (a, true))) ++
        [((last :: xs).getLast (by simp), false)] := by
  induction xs generalizing last with
  | nil => simp [look_ahead_go]
  | cons v rest ih =>
      have hne : v :: rest ≠ [] := by simp
      simp only [look_ahead_go, ih v]
      rw [List.dropLast_cons_of_ne_nil hne, List.map_cons,
        List.getLast_cons hne]
      simp

/-- C10: For every non-empty sequence, `look_ahead` yields exactly the
sequence's elements in order, paired with `true` for every element
except the last, which is paired with `false`; for the empty sequence
`look_ahead` does not yield an empty stream but raises (the initial
`next()` on an exhausted iterator escapes the generator). -/
theorem look_ahead_spec (l : List Nat) :
    (l = [] → look_ahead l = .error .otherExc) ∧
    (∀ h : l ≠ [],
      look_ahead l =
        .ok ((l.dropLast.map (fun a => (a, true))) ++
          [(l.getLast h, false)])) := by
  cases l with
  | nil => exact ⟨fun _ => rfl, fun h => absurd rfl h⟩
  | cons x xs =>
      constructor
      · intro h
        cases h
      · intro h
        simp only [look_ahead, look_ahead_go_spec]

/-- Witness for C10 at the concrete sequence `[3, 4, 5]`. -/
theorem look_ahead_spec_witness :
    look_ahead [3, 4, 5] = .ok [(3, true), (4, true), (5, false)] := by
  have h := (look_ahead_spec [3, 4, 5]).2 (by decide)
  simpa using h

/-! ### Container collaborators

Modelled from the spec: `ConcurrentSet` and `ConcurrentMultiMap` live in
`sawtooth_validator.concurrent.atomic`, which is not part of this
repository snapshot.  The spec describes them as a set and a multimap
with atomic operations, the multimap offering `append_if_unique`
(append iff the identifier is not already present in the list for the
key) and `pop(key, default)`.  We model the set as a duplicate-free
list of identifiers and the multimap as an association list.  Python's
`dict` keeps keys unique; the association-list operations below remove
or look up the first matching entry, which coincides with `dict` on the
unique-key states the engine constructs. -/

/-- Set insertion (`ConcurrentSet.add`). -/
def setAdd (s : List Nat) (x : Nat) : List Nat :=
  if x ∈ s then s else s ++ [x]

/-- Set removal (`ConcurrentSet.remove` / `del` on the block cache,
modelled from the spec as total removal). -/
def setRemove : List Nat → Nat → List Nat
  | [], _ => []
  | y :: rest, x =>
      if y = x then setRemove rest x else y :: setRemove rest x

theorem mem_setAdd {s : List Nat} {x a : Nat} :
    a ∈ setAdd s x ↔ a ∈ s ∨ a = x := by
  unfold setAdd
  split
  · next hx => constructor
               · exact fun h => Or.inl h
               · rintro (h | rfl)
                 · exact h
                 · exact hx
  · simp

theorem mem_setRemove {s : List Nat} {x a : Nat} :
    a ∈ setRemove s x ↔ a ∈ s ∧ a ≠ x := by
  induction s with
  | nil => simp [setRemove]
  | cons y rest ih =>
      by_cases h : y = x
      · subst h
        rw [show setRemove (y :: rest) y = setRemove rest y from by
          simp [setRemove]]
        simp only [ih, List.mem_cons]
        constructor
        · rintro ⟨h1, h2⟩
          exact ⟨Or.inr h1, h2⟩
        · rintro ⟨h1 | h1, h2⟩
          · exact absurd h1 h2
          · exact ⟨h1, h2⟩
      · simp only [setRemove, if_neg h, ih, List.mem_cons]
        constructor
        · rintro (rfl | ⟨h1, h2⟩)
          · exact ⟨Or.inl rfl, h⟩
          · exact ⟨Or.inr h1, h2⟩
        · rintro ⟨rfl | h1, h2⟩
          · exact Or.inl rfl
          · exact Or.inr ⟨h1, h2⟩

/-- Status map: the mutable `status` field of each block object, keyed
by block identifier.  `BlockWrapper` objects start with status
`Unknown`, hence the default. -/
abbrev StatusMap := List (Nat × BlockStatus)

/-- Read a block object's status field. -/
def getStatus : StatusMap → Nat → BlockStatus
  | [], _ => .Unknown
  | (k, v) :: rest, i => if k = i then v else getStatus rest i

/-- Write a block object's status field. -/
def setStatus : StatusMap → Nat → BlockStatus → StatusMap
  | [], i, st => [(i, st)]
  | (k, v) :: rest, i, st =>
      if k = i then (i, st) :: rest else (k, v) :: setStatus rest i st

theorem getStatus_setStatus (m : StatusMap) (i : Nat) (st : BlockStatus)
    (j : Nat) :
    getStatus (setStatus m i st) j =
      if i = j then st else getStatus m j := by
  induction m with
  | nil =>
      simp only [setStatus, getStatus]
  | cons e rest ih =>
      obtain ⟨k, v⟩ := e
      simp only [setStatus]
      by_cases hk : k = i
      · subst hk
        simp only [if_pos rfl, getStatus]
        by_cases hj : k = j
        · subst hj
          simp
        · simp [hj, fun h => hj h]
      · simp only [if_neg hk, getStatus, ih]
        by_cases hj : k = j
        · subst hj
          have : ¬ i = k := fun h => hk h.symm
          simp [this]
        · simp [hj]

/-- A multimap from predecessor identifier to the ordered list of
parked child blocks (`ConcurrentMultiMap`). -/
abbrev MultiMap := List (Nat × List Block)

/-- Multimap lookup; absent keys yield the default `[]` that the source
passes to `pop`. -/
def mmLookup : MultiMap → Nat → List Block
  | [], _ => []
  | (k, v) :: rest, i => if k = i then v else mmLookup rest i

/-- Remove a key (the removal half of `pop(key, default)`). -/
def mmErase : MultiMap → Nat → MultiMap
  | [], _ => []
  | (k, v) :: rest, i =>
      if k = i then rest else (k, v) :: mmErase rest i

/-- `append_if_unique`: append the block to the key's list iff no block
with the same identifier is already there. -/
def mmAppendIfUnique : MultiMap → Nat → Block → MultiMap
  | [], k, b => [(k, [b])]
  | (k', v) :: rest, k, b =>
      if k' = k then
        (if v.any (fun x => x.identifier = b.identifier) then
          (k', v) :: rest
        else
          (k', v ++ [b]) :: rest)
      else
        (k', v) :: mmAppendIfUnique rest k b

/-- Total number of parked blocks held in the multimap; the measure of
the cascade loops. -/
def mmSize : MultiMap → Nat
  | [] => 0
  | (_, v) :: rest => v.length + mmSize rest

theorem mmSize_erase (mm : MultiMap) (k : Nat) :
    mmSize (mmErase mm k) + (mmLookup mm k).length = mmSize mm := by
  induction mm with
  | nil => simp [mmErase, mmLookup, mmSize]
  | cons e rest ih =>
      obtain ⟨k', v⟩ := e
      simp only [mmErase, mmLookup]
      by_cases h : k' = k
      · simp [h, mmSize, Nat.add_comm]
      · simp only [if_neg h, mmSize]
        omega

theorem mmLookup_mmErase_ne {mm : MultiMap} {k k' : Nat} (h : k' ≠ k) :
    mmLookup (mmErase mm k) k' = mmLookup mm k' := by
  induction mm with
  | nil => rfl
  | cons e rest ih =>
      obtain ⟨k0, v⟩ := e
      by_cases h0 : k0 = k
      · subst h0
        rw [show mmErase ((k0, v) :: rest) k0 = rest from by
          simp [mmErase]]
        simp only [mmLookup]
        rw [if_neg (Ne.symm h)]
      · simp only [mmErase, if_neg h0, mmLookup, ih]

/-! ### Pipeline coordinator state -/

/-- The mutable state of the `BlockValidator` coordinator together with
the block cache and the status fields of the block objects it can
reach.  `cache` is the set of identifiers present in the block cache
(modelled from the spec: keyed store with `get`/`contains`/`delete`). -/
structure CoordState where
  processing : List Nat
  pending : List Nat
  pendingByParent : MultiMap
  cache : List Nat
  statuses : StatusMap
deriving DecidableEq, Repr

/-- `in_process`. -/
def in_process (s : CoordState) (block_id : Nat) : Prop :=
  block_id ∈ s.processing

/-- `in_pending`. -/
def in_pending (s : CoordState) (block_id : Nat) : Prop :=
  block_id ∈ s.pending

instance (s : CoordState) (i : Nat) : Decidable (in_process s i) := by
  unfold in_process
  infer_instance

instance (s : CoordState) (i : Nat) : Decidable (in_pending s i) := by
  unfold in_pending
  infer_instance

/-- `_add_block_to_pending`: record the identifier in `pending` and the
block under its predecessor in `pending_by_parent`. -/
def add_block_to_pending (s : CoordState) (b : Block) : CoordState :=
  { s with
    pending := setAdd s.pending b.identifier
    pendingByParent :=
      mmAppendIfUnique s.pendingByParent b.previous_block_id b }

/-- One iteration of the `submit_blocks_for_verification` loop.  The
accumulator carries the coordinator state and the list of blocks
dispatched to the worker pool so far.  Mirrors the source: skip blocks
already in process; park when the predecessor is in process, is
pending, or is missing from the block cache; when the predecessor is
cached with status `Unknown` the block is parked *and then control
falls through* (there is no `continue` in that branch), so the block is
additionally admitted to `processing` and dispatched; predecessors with
status `Valid` or `Invalid` lead to plain admission. -/
def submitStep (acc : CoordState × List Block) (b : Block) :
    CoordState × List Block :=
  let s := acc.1
  let dispatched := acc.2
  if b.identifier ∈ s.processing then
    (s, dispatched)
  else if b.previous_block_id ∈ s.processing then
    (add_block_to_pending s b, dispatched)
  else if b.previous_block_id ∈ s.pending then
    (add_block_to_pending s b, dispatched)
  else if b.previous_block_id ∈ s.cache then
    let s1 :=
      if getStatus s.statuses b.previous_block_id = .Unknown then
        add_block_to_pending s b
      else s
    ({ s1 with processing := setAdd s1.processing b.identifier },
      dispatched ++ [b])
  else
    (add_block_to_pending s b, dispatched)

/-- `submit_blocks_for_verification`: classify each candidate block in
order; returns the final coordinator state and the blocks handed to the
worker pool (`thread_pool.submit`). -/
def submit_blocks_for_verification (s : CoordState) (blocks : List Block) :
    CoordState × List Block :=
  blocks.foldl submitStep (s, [])

/-- C1: the claim states that a submitted block whose predecessor is
cached with status `Unknown` is parked and *not* admitted to
processing nor dispatched.  The source parks the block but the branch
is missing a `continue`: control falls through to admission, so the
block ends up in `pending`, in `processing`, and in the dispatch list
all at once.  This theorem evaluates the code at such an input: block
`2` with predecessor `1`, the predecessor cached with status
`Unknown`. -/
theorem submit_unknown_pred_parks_and_admits :
    (2 : Nat) ∈ (submit_blocks_for_verification
        ⟨[], [], [], [1], [(1, .Unknown)]⟩ [⟨2, 1⟩]).1.pending ∧
    (2 : Nat) ∈ (submit_blocks_for_verification
        ⟨[], [], [], [1], [(1, .Unknown)]⟩ [⟨2, 1⟩]).1.processing ∧
    (⟨2, 1⟩ : Block) ∈ (submit_blocks_for_verification
        ⟨[], [], [], [1], [(1, .Unknown)]⟩ [⟨2, 1⟩]).2 := by
  decide

/-- C2: the claim states that every coordinator operation preserves
`processing ∩ pending = ∅`.  The fall-through documented at
`submit_unknown_pred_parks_and_admits` violates it: submitting block
`7` whose predecessor `5` is cached with status `Unknown` leaves `7` in
both `pending` and `processing`. -/
theorem submit_breaks_processing_pending_disjointness :
    (7 : Nat) ∈ (submit_blocks_for_verification
        ⟨[], [], [], [5], [(5, .Unknown)]⟩ [⟨7, 5⟩]).1.processing ∧
    (7 : Nat) ∈ (submit_blocks_for_verification
        ⟨[], [], [], [5], [(5, .Unknown)]⟩ [⟨7, 5⟩]).1.pending := by
  decide

/-! ### Cascade resolver (`_release_pending`)

The `Invalid` and `Unknown` branches of `_release_pending` run a work
queue: pop a block, update state, pop its children from
`pending_by_parent` and extend the queue with them.  Each iteration
removes one queue entry and moves the popped children from the multimap
into the queue, so `mmSize mm + wq.length` decreases by exactly one;
seeding that measure as fuel therefore reproduces the loop exactly.

Python pops from the *end* of its list and `extend` appends; we encode
the Python list reversed (its end is our head), so a Python
`extend(children)` becomes `children.reverse ++ rest`. -/

/-- The work-queue body of the `Invalid` branch: pop a descendant, set
its status `Invalid` (logged by the source; the log is returned as the
trace, last component), remove it from `pending`, and enqueue its own
children. -/
def cascadeInvalidGo :
    Nat → StatusMap → List Nat → MultiMap → List Block →
      StatusMap × List Nat × MultiMap × List Nat
  | 0, st, pd, mm, _ => (st, pd, mm, [])
  | fuel + 1, st, pd, mm, wq =>
      match wq with
      | [] => (st, pd, mm, [])
      | b :: rest =>
          let st1 := setStatus st b.identifier .Invalid
          let pd1 := setRemove pd b.identifier
          let children := mmLookup mm b.identifier
          let mm1 := mmErase mm b.identifier
          let r := cascadeInvalidGo fuel st1 pd1 mm1
            (children.reverse ++ rest)
          (r.1, r.2.1, r.2.2.1, b.identifier :: r.2.2.2)

/-- The work-queue body of the `Unknown` (error) branch: pop a
descendant, remove it from `pending` and delete it from the block cache
(logged by the source; the log is the trace), and enqueue its own
children.  Statuses are not touched. -/
def cascadeRemoveGo :
    Nat → List Nat → List Nat → MultiMap → List Block →
      List Nat × List Nat × MultiMap × List Nat
  | 0, pd, cache, mm, _ => (pd, cache, mm, [])
  | fuel + 1, pd, cache, mm, wq =>
      match wq with
      | [] => (pd, cache, mm, [])
      | b :: rest =>
          let pd1 := setRemove pd b.identifier
          let cache1 := setRemove cache b.identifier
          let children := mmLookup mm b.identifier
          let mm1 := mmErase mm b.identifier
          let r := cascadeRemoveGo fuel pd1 cache1 mm1
            (children.reverse ++ rest)
          (r.1, r.2.1, r.2.2.1, b.identifier :: r.2.2.2)

/-- The identifiers processed by either cascade loop, in processing
order: both loops traverse the queue/multimap identically. -/
def cascadeTraceGo : Nat → MultiMap → List Block → List Nat
  | 0, _, _ => []
  | fuel + 1, mm, wq =>
      match wq with
      | [] => []
      | b :: rest =>
          b.identifier ::
            cascadeTraceGo fuel (mmErase mm b.identifier)
              ((mmLookup mm b.identifier).reverse ++ rest)

/-- `_release_pending`: remove the block from `processing`; then on
`Valid` release the direct children (removing them from `pending`) and
return them for re-submission; on `Invalid` transitively invalidate the
parked descendants; otherwise (an error occurred, status `Unknown`)
transitively remove the parked descendants from `pending` and from the
block cache.  Returns the new state, the blocks now ready, and the
per-descendant log trace of the cascade branches. -/
def release_pending (s : CoordState) (b : Block) :
    CoordState × List Block × List Nat :=
  let s0 := { s with processing := setRemove s.processing b.identifier }
  if getStatus s0.statuses b.identifier = .Valid then
    let ready := mmLookup s0.pendingByParent b.identifier
    let mm1 := mmErase s0.pendingByParent b.identifier
    let pd1 := ready.foldl (fun p blk => setRemove p blk.identifier)
      s0.pending
    ({ s0 with pendingByParent := mm1, pending := pd1 }, ready, [])
  else if getStatus s0.statuses b.identifier = .Invalid then
    let seed := mmLookup s0.pendingByParent b.identifier
    let mm1 := mmErase s0.pendingByParent b.identifier
    let wq := seed.reverse
    let r := cascadeInvalidGo (mmSize mm1 + wq.length) s0.statuses
      s0.pending mm1 wq
    ({ s0 with
        statuses := r.1
        pending := r.2.1
        pendingByParent := r.2.2.1 }, [], r.2.2.2)
  else
    let seed := mmLookup s0.pendingByParent b.identifier
    let mm1 := mmErase s0.pendingByParent b.identifier
    let wq := seed.reverse
    let r := cascadeRemoveGo (mmSize mm1 + wq.length) s0.pending
      s0.cache mm1 wq
    ({ s0 with
        pending := r.1
        cache := r.2.1
        pendingByParent := r.2.2.1 }, [], r.2.2.2)

/-! ### Reachability through `pending_by_parent` -/

/-- Transitive reachability from a root identifier through the
multimap: the root's direct children and, recursively, children of
reached blocks. -/
inductive Reach (mm : MultiMap) (root : Nat) : Block → Prop where
  | child {b : Block} : b ∈ mmLookup mm root → Reach mm root b
  | step {p b : Block} : Reach mm root p →
      b ∈ mmLookup mm p.identifier → Reach mm root b

/-- Reachability from a work queue: queue members and, recursively,
children of reached blocks. -/
inductive ReachFrom (mm : MultiMap) (wq : List Block) : Block → Prop where
  | base {b : Block} : b ∈ wq → ReachFrom mm wq b
  | step {p b : Block} : ReachFrom mm wq p →
      b ∈ mmLookup mm p.identifier → ReachFrom mm wq b

theorem reachFrom_transfer {mm : MultiMap} {b : Block} {rest : List Block}
    {x : Block} (h : ReachFrom mm (b :: rest) x) :
    x = b ∨
      ReachFrom (mmErase mm b.identifier)
        ((mmLookup mm b.identifier).reverse ++ rest) x := by
  induction h with
  | base hb =>
      rcases List.mem_cons.mp hb with rfl | hb
      · exact Or.inl rfl
      · exact Or.inr (.base (List.mem_append.mpr (Or.inr hb)))
  | step hp hb ih =>
      rcases ih with rfl | hp'
      · exact Or.inr (.base
          (List.mem_append.mpr (Or.inl (List.mem_reverse.mpr hb))))
      · rename_i p x'
        by_cases hid : p.identifier = b.identifier
        · rw [hid] at hb
          exact Or.inr (.base
            (List.mem_append.mpr (Or.inl (List.mem_reverse.mpr hb))))
        · refine Or.inr (.step hp' ?_)
          rwa [mmLookup_mmErase_ne hid]

theorem reachFrom_nil {mm : MultiMap} {x : Block} :
    ¬ ReachFrom mm [] x := by
  intro h
  induction h with
  | base hb => simp at hb
  | step hp hb ih => exact ih

theorem cascadeTraceGo_cover {fuel : Nat} :
    ∀ {mm : MultiMap} {wq : List Block} {x : Block},
      mmSize mm + wq.length ≤ fuel → ReachFrom mm wq x →
      x.identifier ∈ cascadeTraceGo fuel mm wq := by
  induction fuel with
  | zero =>
      intro mm wq x hle hr
      have hwq : wq = [] := by
        cases wq with
        | nil => rfl
        | cons a l => simp at hle
      subst hwq
      exact absurd hr reachFrom_nil
  | succ n ih =>
      intro mm wq x hle hr
      cases wq with
      | nil => exact absurd hr reachFrom_nil
      | cons b rest =>
          simp only [cascadeTraceGo]
          rcases reachFrom_transfer hr with rfl | hr'
          · exact List.mem_cons_self _ _
          · refine List.mem_cons_of_mem _ (ih ?_ hr')
            have := mmSize_erase mm b.identifier
            simp only [List.length_append, List.length_reverse,
              List.length_cons] at hle ⊢
            omega

theorem cascadeInvalidGo_trace (fuel : Nat) :
    ∀ (st : StatusMap) (pd : List Nat) (mm : MultiMap) (wq : List Block),
      (cascadeInvalidGo fuel st pd mm wq).2.2.2 =
        cascadeTraceGo fuel mm wq := by
  induction fuel with
  | zero => intro st pd mm wq; rfl
  | succ n ih =>
      intro st pd mm wq
      cases wq with
      | nil => rfl
      | cons b rest => simp [cascadeInvalidGo, cascadeTraceGo, ih]

theorem cascadeRemoveGo_trace (fuel : Nat) :
    ∀ (pd cache : List Nat) (mm : MultiMap) (wq : List Block),
      (cascadeRemoveGo fuel pd cache mm wq).2.2.2 =
        cascadeTraceGo fuel mm wq := by
  induction fuel with
  | zero => intro pd cache mm wq; rfl
  | succ n ih =>
      intro pd cache mm wq
      cases wq with
      | nil => rfl
      | cons b rest => simp [cascadeRemoveGo, cascadeTraceGo, ih]

theorem cascadeInvalidGo_status (fuel : Nat) :
    ∀ (st : StatusMap) (pd : List Nat) (mm : MultiMap) (wq : List Block)
      (i : Nat),
      getStatus (cascadeInvalidGo fuel st pd mm wq).1 i =
        if i ∈ cascadeTraceGo fuel mm wq then .Invalid
        else getStatus st i := by
  induction fuel with
  | zero =>
      intro st pd mm wq i
      simp [cascadeInvalidGo, cascadeTraceGo]
  | succ n ih =>
      intro st pd mm wq i
      cases wq with
      | nil => simp [cascadeInvalidGo, cascadeTraceGo]
      | cons b rest =>
          simp only [cascadeInvalidGo, cascadeTraceGo, ih,
            getStatus_setStatus, List.mem_cons]
          by_cases h1 : i ∈ cascadeTraceGo n (mmErase mm b.identifier)
              ((mmLookup mm b.identifier).reverse ++ rest)
          · simp [h1]
          · by_cases h2 : b.identifier = i
            · simp [h1, h2]
            · have h2' : ¬ i = b.identifier := fun hh => h2 hh.symm
              simp [h1, h2, h2']

theorem cascadeInvalidGo_pending (fuel : Nat) :
    ∀ (st : StatusMap) (pd : List Nat) (mm : MultiMap) (wq : List Block)
      (i : Nat),
      i ∈ (cascadeInvalidGo fuel st pd mm wq).2.1 ↔
        i ∈ pd ∧ i ∉ cascadeTraceGo fuel mm wq := by
  induction fuel with
  | zero =>
      intro st pd mm wq i
      simp [cascadeInvalidGo, cascadeTraceGo]
  | succ n ih =>
      intro st pd mm wq i
      cases wq with
      | nil => simp [cascadeInvalidGo, cascadeTraceGo]
      | cons b rest =>
          simp only [cascadeInvalidGo, cascadeTraceGo, ih,
            mem_setRemove, List.mem_cons]
          constructor
          · rintro ⟨⟨h1, h2⟩, h3⟩
            exact ⟨h1, by simp [h2, h3]⟩
          · rintro ⟨h1, h2⟩
            push_neg at h2
            exact ⟨⟨h1, h2.1⟩, h2.2⟩

theorem cascadeRemoveGo_pending (fuel : Nat) :
    ∀ (pd cache : List Nat) (mm : MultiMap) (wq : List Block) (i : Nat),
      i ∈ (cascadeRemoveGo fuel pd cache mm wq).1 ↔
        i ∈ pd ∧ i ∉ cascadeTraceGo fuel mm wq := by
  induction fuel with
  | zero =>
      intro pd cache mm wq i
      simp [cascadeRemoveGo, cascadeTraceGo]
  | succ n ih =>
      intro pd cache mm wq i
      cases wq with
      | nil => simp [cascadeRemoveGo, cascadeTraceGo]
      | cons b rest =>
          simp only [cascadeRemoveGo, cascadeTraceGo, ih,
            mem_setRemove, List.mem_cons]
          constructor
          · rintro ⟨⟨h1, h2⟩, h3⟩
            exact ⟨h1, by simp [h2, h3]⟩
          · rintro ⟨h1, h2⟩
            push_neg at h2
            exact ⟨⟨h1, h2.1⟩, h2.2⟩

theorem cascadeRemoveGo_cache (fuel : Nat) :
    ∀ (pd cache : List Nat) (mm : MultiMap) (wq : List Block) (i : Nat),
      i ∈ (cascadeRemoveGo fuel pd cache mm wq).2.1 ↔
        i ∈ cache ∧ i ∉ cascadeTraceGo fuel mm wq := by
  induction fuel with
  | zero =>
      intro pd cache mm wq i
      simp [cascadeRemoveGo, cascadeTraceGo]
  | succ n ih =>
      intro pd cache mm wq i
      cases wq with
      | nil => simp [cascadeRemoveGo, cascadeTraceGo]
      | cons b rest =>
          simp only [cascadeRemoveGo, cascadeTraceGo, ih,
            mem_setRemove, List.mem_cons]
          constructor
          · rintro ⟨⟨h1, h2⟩, h3⟩
            exact ⟨h1, by simp [h2, h3]⟩
          · rintro ⟨h1, h2⟩
            push_neg at h2
            exact ⟨⟨h1, h2.1⟩, h2.2⟩

/-- All identifiers held in the value lists of the multimap. -/
def mmIds : MultiMap → List Nat
  | [] => []
  | (_, v) :: rest => v.map Block.identifier ++ mmIds rest

theorem mem_mmIds_of_mem_lookup {mm : MultiMap} {k : Nat} {b : Block}
    (h : b ∈ mmLookup mm k) : b.identifier ∈ mmIds mm := by
  induction mm with
  | nil => simp [mmLookup] at h
  | cons e rest ih =>
      obtain ⟨k0, v⟩ := e
      simp only [mmLookup] at h
      simp only [mmIds, List.mem_append]
      by_cases h0 : k0 = k
      · rw [if_pos h0] at h
        exact Or.inl (List.mem_map_of_mem _ h)
      · rw [if_neg h0] at h
        exact Or.inr (ih h)

theorem mem_mmIds_mmErase {mm : MultiMap} {k : Nat} {i : Nat}
    (h : i ∈ mmIds (mmErase mm k)) : i ∈ mmIds mm := by
  induction mm with
  | nil => simpa [mmErase] using h
  | cons e rest ih =>
      obtain ⟨k0, v⟩ := e
      simp only [mmErase] at h
      by_cases h0 : k0 = k
      · rw [if_pos h0] at h
        simp only [mmIds, List.mem_append]
        exact Or.inr h
      · rw [if_neg h0] at h
        simp only [mmIds, List.mem_append] at h ⊢
        rcases h with h | h
        · exact Or.inl h
        · exact Or.inr (ih h)

theorem mmIds_perm_pop (mm : MultiMap) (k : Nat) :
    List.Perm (mmIds mm)
      ((mmLookup mm k).map Block.identifier ++ mmIds (mmErase mm k)) := by
  induction mm with
  | nil => simp [mmIds, mmLookup, mmErase]
  | cons e rest ih =>
      obtain ⟨k0, v⟩ := e
      by_cases h0 : k0 = k
      · subst h0
        simp only [mmIds, mmLookup, if_pos rfl, mmErase]
        exact List.Perm.refl _
      · simp only [mmIds, mmLookup, if_neg h0, mmErase]
        refine (List.Perm.append_left _ ih).trans ?_
        exact List.perm_append_comm_assoc _ _ _

theorem cascadeTraceGo_subset (fuel : Nat) :
    ∀ {mm : MultiMap} {wq : List Block} {i : Nat},
      i ∈ cascadeTraceGo fuel mm wq →
      i ∈ wq.map Block.identifier ++ mmIds mm := by
  induction fuel with
  | zero => intro mm wq i h; simp [cascadeTraceGo] at h
  | succ n ih =>
      intro mm wq i h
      cases wq with
      | nil => simp [cascadeTraceGo] at h
      | cons b rest =>
          simp only [cascadeTraceGo, List.mem_cons] at h
          rcases h with rfl | h
          · simp
          · have h2 := ih h
            rcases List.mem_append.mp h2 with h2 | h2
            · rw [List.map_append, List.mem_append] at h2
              rcases h2 with h2 | h2
              · rw [List.map_reverse, List.mem_reverse] at h2
                obtain ⟨x, hx, rfl⟩ := List.mem_map.mp h2
                exact List.mem_append.mpr
                  (Or.inr (mem_mmIds_of_mem_lookup hx))
              · refine List.mem_append.mpr (Or.inl ?_)
                rw [List.map_cons]
                exact List.mem_cons_of_mem _ h2
            · exact List.mem_append.mpr
                (Or.inr (mem_mmIds_mmErase h2))

theorem cascadeTraceGo_nodup (fuel : Nat) :
    ∀ {mm : MultiMap} {wq : List Block},
      (wq.map Block.identifier ++ mmIds mm).Nodup →
      (cascadeTraceGo fuel mm wq).Nodup := by
  induction fuel with
  | zero => intro mm wq _; simp [cascadeTraceGo]
  | succ n ih =>
      intro mm wq hnd
      cases wq with
      | nil => simp [cascadeTraceGo]
      | cons b rest =>
          simp only [cascadeTraceGo]
          simp only [List.map_cons, List.cons_append, List.nodup_cons,
            List.mem_append] at hnd
          obtain ⟨hbnot, htail⟩ := hnd
          push_neg at hbnot
          obtain ⟨hb1, hb2⟩ := hbnot
          have hperm : List.Perm
              (rest.map Block.identifier ++ mmIds mm)
              (((mmLookup mm b.identifier).reverse ++ rest).map
                  Block.identifier ++
                mmIds (mmErase mm b.identifier)) := by
            rw [List.map_append, List.map_reverse, List.append_assoc]
            refine (List.Perm.append_left _
              (mmIds_perm_pop mm b.identifier)).trans ?_
            refine (List.perm_append_comm_assoc _ _ _).trans ?_
            exact List.Perm.append_right _ (List.reverse_perm _).symm
          refine List.nodup_cons.mpr ⟨?_, ih (hperm.nodup htail)⟩
          intro hmem
          have hsub := cascadeTraceGo_subset n hmem
          have hsub' := (hperm.mem_iff).mpr hsub
          rcases List.mem_append.mp hsub' with h | h
          · exact hb1 h
          · exact hb2 h

theorem reach_reachFrom {mm : MultiMap} {root : Nat} {x : Block}
    (h : Reach mm root x) :
    ReachFrom (mmErase mm root) ((mmLookup mm root).reverse) x := by
  induction h with
  | child hb => exact .base (List.mem_reverse.mpr hb)
  | step hp hb ih =>
      rename_i p x'
      by_cases hid : p.identifier = root
      · rw [hid] at hb
        exact .base (List.mem_reverse.mpr hb)
      · refine .step ih ?_
        rwa [mmLookup_mmErase_ne hid]

/-- C6: When the cascade resolver runs on a block whose status is
`Invalid`, every parked descendant transitively reachable from it
through `pending_by_parent` has its status set to `Invalid` exactly
once (the returned trace is the per-descendant invalidation log, and
the descendant's identifier occurs in it exactly once) and is removed
from `pending`, and the resolver returns the empty list.  The
no-duplicate hypothesis states that no identifier is parked under two
parents (which `_add_block_to_pending` maintains, a block having a
single predecessor). -/
theorem release_pending_invalid_cascade (s : CoordState) (b : Block)
    (hst : getStatus s.statuses b.identifier = .Invalid)
    (hnd : (mmIds s.pendingByParent).Nodup) :
    (release_pending s b).2.1 = [] ∧
    ∀ x, Reach s.pendingByParent b.identifier x →
      getStatus (release_pending s b).1.statuses x.identifier =
        .Invalid ∧
      x.identifier ∉ (release_pending s b).1.pending ∧
      (release_pending s b).2.2.count x.identifier = 1 := by
  constructor
  · simp [release_pending, hst]
  · intro x hx
    have hcov : x.identifier ∈ cascadeTraceGo
        (mmSize (mmErase s.pendingByParent b.identifier) +
          ((mmLookup s.pendingByParent b.identifier).reverse).length)
        (mmErase s.pendingByParent b.identifier)
        ((mmLookup s.pendingByParent b.identifier).reverse) :=
      cascadeTraceGo_cover le_rfl (reach_reachFrom hx)
    have hnd2 :
        (((mmLookup s.pendingByParent b.identifier).reverse).map
            Block.identifier ++
          mmIds (mmErase s.pendingByParent b.identifier)).Nodup := by
      have h1 := (mmIds_perm_pop s.pendingByParent b.identifier).nodup hnd
      have h2 : List.Perm
          ((mmLookup s.pendingByParent b.identifier).map
              Block.identifier ++
            mmIds (mmErase s.pendingByParent b.identifier))
          (((mmLookup s.pendingByParent b.identifier).map
              Block.identifier).reverse ++
            mmIds (mmErase s.pendingByParent b.identifier)) :=
        List.Perm.append_right _ (List.reverse_perm _).symm
      have h3 := h2.nodup h1
      rwa [← List.map_reverse] at h3
    refine ⟨?_, ?_, ?_⟩
    · simp only [release_pending, hst]
      simp only [show (BlockStatus.Invalid = BlockStatus.Valid) = False
        from by simp, if_false, eq_self_iff_true, if_true]
      rw [cascadeInvalidGo_status]
      rw [if_pos hcov]
    · simp only [release_pending, hst]
      simp only [show (BlockStatus.Invalid = BlockStatus.Valid) = False
        from by simp, if_false, eq_self_iff_true, if_true]
      rw [cascadeInvalidGo_pending]
      rintro ⟨_, hno⟩
      exact hno hcov
    · simp only [release_pending, hst]
      simp only [show (BlockStatus.Invalid = BlockStatus.Valid) = False
        from by simp, if_false, eq_self_iff_true, if_true]
      rw [cascadeInvalidGo_trace]
      exact List.count_eq_one_of_mem
        (cascadeTraceGo_nodup _ hnd2) hcov

/-- Witness for C6: a concrete state in which block `10` (status
`Invalid`) has parked child `11` which in turn has parked child `12`;
both descendants end `Invalid`, leave `pending`, and are logged exactly
once, and nothing is returned for re-submission. -/
theorem release_pending_invalid_cascade_witness :
    getStatus [(10, BlockStatus.Invalid)] 10 = .Invalid ∧
    (mmIds [(10, [⟨11, 10⟩]), (11, [⟨12, 11⟩])]).Nodup ∧
    ((release_pending
        ⟨[10], [11, 12], [(10, [⟨11, 10⟩]), (11, [⟨12, 11⟩])], [],
          [(10, BlockStatus.Invalid)]⟩ ⟨10, 9⟩).2.1 = [] ∧
      ∀ x, Reach [(10, [⟨11, 10⟩]), (11, [⟨12, 11⟩])] 10 x →
        getStatus (release_pending
            ⟨[10], [11, 12], [(10, [⟨11, 10⟩]), (11, [⟨12, 11⟩])], [],
              [(10, BlockStatus.Invalid)]⟩ ⟨10, 9⟩).1.statuses
          x.identifier = .Invalid ∧
        x.identifier ∉ (release_pending
            ⟨[10], [11, 12], [(10, [⟨11, 10⟩]), (11, [⟨12, 11⟩])], [],
              [(10, BlockStatus.Invalid)]⟩ ⟨10, 9⟩).1.pending ∧
        (release_pending
            ⟨[10], [11, 12], [(10, [⟨11, 10⟩]), (11, [⟨12, 11⟩])], [],
              [(10, BlockStatus.Invalid)]⟩ ⟨10, 9⟩).2.2.count
          x.identifier = 1) :=
  ⟨by decide, by decide,
    release_pending_invalid_cascade
      ⟨[10], [11, 12], [(10, [⟨11, 10⟩]), (11, [⟨12, 11⟩])], [],
        [(10, BlockStatus.Invalid)]⟩ ⟨10, 9⟩ (by decide) (by decide)⟩

/-- C7: When the cascade resolver runs on a block whose status is
`Unknown`, every parked descendant transitively reachable through
`pending_by_parent` is removed from `pending` and deleted from the
block cache, no block's status is changed (the status map is returned
untouched, so in particular no descendant becomes `Invalid`), and the
resolver returns the empty list. -/
theorem release_pending_unknown_cascade (s : CoordState) (b : Block)
    (hst : getStatus s.statuses b.identifier = .Unknown) :
    (release_pending s b).2.1 = [] ∧
    (release_pending s b).1.statuses = s.statuses ∧
    ∀ x, Reach s.pendingByParent b.identifier x →
      x.identifier ∉ (release_pending s b).1.pending ∧
      x.identifier ∉ (release_pending s b).1.cache := by
  refine ⟨?_, ?_, ?_⟩
  · simp [release_pending, hst]
  · simp [release_pending, hst]
  · intro x hx
    have hcov : x.identifier ∈ cascadeTraceGo
        (mmSize (mmErase s.pendingByParent b.identifier) +
          ((mmLookup s.pendingByParent b.identifier).reverse).length)
        (mmErase s.pendingByParent b.identifier)
        ((mmLookup s.pendingByParent b.identifier).reverse) :=
      cascadeTraceGo_cover le_rfl (reach_reachFrom hx)
    constructor
    · simp only [release_pending, hst]
      simp only [show (BlockStatus.Unknown = BlockStatus.Valid) = False
        from by simp, show
        (BlockStatus.Unknown = BlockStatus.Invalid) = False
        from by simp, if_false]
      rw [cascadeRemoveGo_pending]
      rintro ⟨_, hno⟩
      exact hno hcov
    · simp only [release_pending, hst]
      simp only [show (BlockStatus.Unknown = BlockStatus.Valid) = False
        from by simp, show
        (BlockStatus.Unknown = BlockStatus.Invalid) = False
        from by simp, if_false]
      rw [cascadeRemoveGo_cache]
      rintro ⟨_, hno⟩
      exact hno hcov

/-- Witness for C7: block `20` (status `Unknown`, e.g. after a
validation error) with parked chain `21 ← 22`; both descendants leave
`pending` and the block cache, the status map is untouched, and
nothing is re-submitted. -/
theorem release_pending_unknown_cascade_witness :
    getStatus [(20, BlockStatus.Unknown)] 20 = .Unknown ∧
    ((release_pending
        ⟨[20], [21, 22], [(20, [⟨21, 20⟩]), (21, [⟨22, 21⟩])],
          [20, 21, 22], [(20, BlockStatus.Unknown)]⟩ ⟨20, 19⟩).2.1 = [] ∧
      (release_pending
          ⟨[20], [21, 22], [(20, [⟨21, 20⟩]), (21, [⟨22, 21⟩])],
            [20, 21, 22], [(20, BlockStatus.Unknown)]⟩ ⟨20, 19⟩).1.statuses =
        [(20, BlockStatus.Unknown)] ∧
      ∀ x, Reach [(20, [⟨21, 20⟩]), (21, [⟨22, 21⟩])] 20 x →
        x.identifier ∉ (release_pending
            ⟨[20], [21, 22], [(20, [⟨21, 20⟩]), (21, [⟨22, 21⟩])],
              [20, 21, 22], [(20, BlockStatus.Unknown)]⟩ ⟨20, 19⟩).1.pending ∧
        x.identifier ∉ (release_pending
            ⟨[20], [21, 22], [(20, [⟨21, 20⟩]), (21, [⟨22, 21⟩])],
              [20, 21, 22], [(20, BlockStatus.Unknown)]⟩ ⟨20, 19⟩).1.cache) :=
  ⟨by decide,
    release_pending_unknown_cascade
      ⟨[20], [21, 22], [(20, [⟨21, 20⟩]), (21, [⟨22, 21⟩])],
        [20, 21, 22], [(20, BlockStatus.Unknown)]⟩ ⟨20, 19⟩ (by decide)⟩

/-! ### Worker-pool interpreter

`process_block_verification` validates the block (possibly re-running
when the chain head moves), runs `_release_pending`, re-submits the
newly ready blocks, and finally invokes the user callback with the
block.  The validation loop's verdict depends on the external executor,
consensus and state collaborators, so it is abstracted by an `outcome`
oracle giving the block's final status; everything after the loop is
the source's control flow.  The default pool has a single worker, so
queued jobs run sequentially in submission order. -/

/-- One worker job: record the validation verdict in the block's status
field, run the cascade resolver, and re-submit the newly ready blocks.
Returns the new state and the jobs dispatched by the re-submission.
The caller then invokes the callback for the processed block. -/
def processOne (outcome : Nat → BlockStatus) (s : CoordState)
    (b : Block) : CoordState × List Block :=
  let s1 := { s with
    statuses := setStatus s.statuses b.identifier (outcome b.identifier) }
  let r := release_pending s1 b
  submit_blocks_for_verification r.1 r.2.1

/-- Run the single-worker pool to quiescence.  `disp` logs every job
identifier handed to the pool, `cbs` logs every callback invocation;
`none` when the fuel is exhausted before the queue drains. -/
def runPool (outcome : Nat → BlockStatus) :
    Nat → CoordState → List Block → List Nat → List Nat →
      Option (CoordState × List Nat × List Nat)
  | 0, _, _, _, _ => none
  | _ + 1, s, [], disp, cbs => some (s, disp, cbs)
  | fuel + 1, s, j :: rest, disp, cbs =>
      let r := processOne outcome s j
      runPool outcome fuel r.1 (rest ++ r.2)
        (disp ++ r.2.map Block.identifier) (cbs ++ [j.identifier])

/-- Submit a batch of candidate blocks and drive the pool to
quiescence. -/
def coordinatorRun (outcome : Nat → BlockStatus) (fuel : Nat)
    (s : CoordState) (blocks : List Block) :
    Option (CoordState × List Nat × List Nat) :=
  let r := submit_blocks_for_verification s blocks
  runPool outcome fuel r.1 r.2 (r.2.map Block.identifier) []

/-- Counterexample to C3: the claim states that *every* block passed to
`submit_blocks_for_verification` eventually receives exactly one
callback, including parked descendants resolved by the cascade.  In the
code, descendants invalidated (or purged) by `_release_pending` are
removed without ever being dispatched, and the callback only fires at
the end of `process_block_verification` for the block being processed —
so they never receive a callback.  Concretely: submit `B1` (predecessor
valid in cache) and `B2` (child of `B1`, parked); `B1` validates
`Invalid`; the run reaches quiescence with callback log `[1]`: one
callback for `B1`, zero for the submitted block `B2` (and only `B1` was
ever dispatched). -/
theorem coordinatorRun_missed_callback :
    ((coordinatorRun
        (fun i => if i = 1 then BlockStatus.Invalid else BlockStatus.Valid)
        5 ⟨[], [], [], [0], [(0, BlockStatus.Valid)]⟩
        [⟨1, 0⟩, ⟨2, 1⟩]).map
      (fun out => (out.2.2.count 2, out.2.2.count 1, out.2.1))) =
      some (0, 1, [1]) := by
  decide

/-- C3 (amended): the callback is invoked exactly once per *dispatched*
validation job (rather than once per submitted block): whenever the
pool runs to quiescence, the callback log is, identifier by identifier,
in exact one-to-one correspondence with the dispatch log.  Parked
blocks resolved by cascade invalidation or purge are never dispatched
and receive no callback, as `coordinatorRun_missed_callback` shows. -/
theorem coordinatorRun_callback_per_dispatch
    (outcome : Nat → BlockStatus) (fuel : Nat) (s : CoordState)
    (blocks : List Block) (out : CoordState × List Nat × List Nat)
    (h : coordinatorRun outcome fuel s blocks = some out) :
    ∀ i, out.2.1.count i = out.2.2.count i := by
  have main : ∀ (fuel : Nat) (s : CoordState) (jobs : List Block)
      (disp cbs : List Nat) (out : CoordState × List Nat × List Nat),
      runPool outcome fuel s jobs disp cbs = some out →
      ∀ i, disp.count i =
          cbs.count i + (jobs.map Block.identifier).count i →
        out.2.1.count i = out.2.2.count i := by
    intro fuel
    induction fuel with
    | zero =>
        intro s jobs disp cbs out h i hinv
        simp [runPool] at h
    | succ n ih =>
        intro s jobs disp cbs out h i hinv
        cases jobs with
        | nil =>
            simp only [runPool, Option.some.injEq] at h
            subst h
            simpa using hinv
        | cons j rest =>
            simp only [runPool] at h
            refine ih _ _ _ _ _ h i ?_
            simp only [List.count_append, List.map_append,
              List.map_cons, List.count_cons, List.count_nil] at hinv ⊢
            omega
  have h0 : ∀ i,
      ((submit_blocks_for_verification s blocks).2.map
          Block.identifier).count i =
        ([] : List Nat).count i +
          (((submit_blocks_for_verification s blocks).2.map
            Block.identifier).count i) := by
    intro i
    simp
  exact fun i => main fuel _ _ _ _ out h i (h0 i)

/-- Witness for C3 (amended): a concrete quiescent run (one block,
valid predecessor, verdict `Valid`) where the callback count equals the
dispatch count for identifier `1`. -/
theorem coordinatorRun_callback_per_dispatch_witness :
    ((⟨⟨[], [], [], [0],
          [(0, BlockStatus.Valid), (1, BlockStatus.Valid)]⟩,
        [1], [1]⟩ : CoordState × List Nat × List Nat).2.1.count 1 =
      (⟨⟨[], [], [], [0],
          [(0, BlockStatus.Valid), (1, BlockStatus.Valid)]⟩,
        [1], [1]⟩ : CoordState × List Nat × List Nat).2.2.count 1) :=
  coordinatorRun_callback_per_dispatch (fun _ => BlockStatus.Valid) 5
    ⟨[], [], [], [0], [(0, BlockStatus.Valid)]⟩ [⟨1, 0⟩] _ (by decide) 1

/-! ### Batch validation (`_validate_batches_in_block`)

The executor, scheduler and `ChainCommitState` are collaborators whose
sources are not in this snapshot; they are modelled from the spec as
oracles.  The scheduler's observable actions are recorded in an event
trace (`Ev`): construction of the `ChainCommitState`, scheduler
creation and execution start, each `add_batch`, `cancel`, `finalize`
and `complete`.  Oracles that may depend on the previous state root
take it as their first argument (the scheduler is anchored at that
root).  `finalize`/`complete` are modelled from the spec (no error mode
is given for them). -/

/-- Observable scheduler/commit-state events. -/
inductive Ev where
  | ccsCreated : Ev
  | schedCreated : Ev
  | executed : Ev
  | batchAdded : Nat → Ev
  | cancelled : Ev
  | finalized : Ev
  | completed : Ev
deriving DecidableEq, Repr

/-- A batch execution result as returned by
`scheduler.get_batch_execution_result`. -/
structure BatchResult where
  is_valid : Bool
  state_hash : Nat
deriving DecidableEq, Repr

/-- Modelled from the spec: the outcomes of the external collaborators
used by `_validate_batches_in_block` — `ChainCommitState` construction
and its three checks, `scheduler.add_batch`, and the per-batch
execution results.  `add_batch` takes the previous state root, the
batch identifier and the optional commit hint (the declared state root
passed with the last batch); result oracles take the previous state
root and the batch identifier. -/
structure BatchEnv where
  ccs_create : Except PyExc Unit
  check_duplicate_batches : Except PyExc Unit
  check_duplicate_transactions : Except PyExc Unit
  check_transaction_dependencies : Except PyExc Unit
  add_batch : Nat → Nat → Option Nat → Except PyExc Unit
  batch_execution_result : Nat → Nat → Option BatchResult
  txn_execution_results : Nat → Nat → List Nat

/-- Feed the batches to the scheduler in block order via `look_ahead`:
every batch but the last without a commit hint, the last together with
the block's declared state root. -/
def feed_batches (env : BatchEnv) (prev : Nat) (root_hint : Nat) :
    List (Batch × Bool) → Except PyExc Unit × List Ev
  | [] => (.ok (), [])
  | (b, has_more) :: rest =>
      let hint := if has_more then none else some root_hint
      match env.add_batch prev b.header_signature hint with
      | .error e => (.error e, [])
      | .ok _ =>
          let r := feed_batches env prev root_hint rest
          (r.1, .batchAdded b.header_signature :: r.2)

/-- The guarded region of `_validate_batches_in_block` (the `try`
block): construct the `ChainCommitState`, create the scheduler and
start execution, run the three duplicate/dependency checks in order,
then feed the batches.  Returns the outcome, the event trace, and
whether the scheduler had been created (`scheduler is not None`). -/
def scheduling_phase (env : BatchEnv) (blkw : BlockW) (prev : Nat) :
    Except PyExc Unit × List Ev × Bool :=
  match env.ccs_create with
  | .error e => (.error e, [], false)
  | .ok _ =>
      let tr0 := [Ev.ccsCreated, Ev.schedCreated, Ev.executed]
      match env.check_duplicate_batches with
      | .error e => (.error e, tr0, true)
      | .ok _ =>
          match env.check_duplicate_transactions with
          | .error e => (.error e, tr0, true)
          | .ok _ =>
              match env.check_transaction_dependencies with
              | .error e => (.error e, tr0, true)
              | .ok _ =>
                  match look_ahead blkw.batches with
                  | .error e => (.error e, tr0, true)
                  | .ok pairs =>
                      let r := feed_batches env prev
                        blkw.state_root_hash pairs
                      (r.1, tr0 ++ r.2, true)

/-- The `chain_commit_state` exceptions caught by the first `except`
clause (`DuplicateBatch`, `DuplicateTransaction`,
`MissingDependency`). -/
def is_commit_state_error : PyExc → Bool
  | .dupBatch => true
  | .dupTxn => true
  | .missingDep => true
  | _ => false

/-- The post-completion result loop: for each batch in order fetch its
execution result; a missing or invalid result raises
`BlockValidationFailure`; a valid one appends its transaction results
to the block, tracks the running state hash, and adds the batch's
transaction count.  State: `(execution_results, num_transactions,
state_hash)`. -/
def batch_results_loop (env : BatchEnv) (prev : Nat) :
    List Batch → List Nat → Nat → Option Nat →
      Except PyExc Unit × List Nat × Nat × Option Nat
  | [], er, nt, sh => (.ok (), er, nt, sh)
  | b :: rest, er, nt, sh =>
      match env.batch_execution_result prev b.header_signature with
      | some res =>
          if res.is_valid then
            batch_results_loop env prev rest
              (er ++ env.txn_execution_results prev b.header_signature)
              (nt + b.transactions.length) (some res.state_hash)
          else (.error .validationFailure, er, nt, sh)
      | none => (.error .validationFailure, er, nt, sh)

/-- `_validate_batches_in_block`: no batches → immediate success;
otherwise run the guarded scheduling phase (on an exception there,
cancel the scheduler if it was created, converting commit-state errors
into `BlockValidationFailure` and re-raising everything else), then
finalize, complete, check each batch's execution result, and compare
the final state hash with the block's declared state root.  Returns the
outcome, the event trace, and the block's mutated
`(execution_results, num_transactions)`. -/
def validate_batches_in_block (env : BatchEnv) (blkw : BlockW)
    (prev : Nat) : Except PyExc Unit × List Ev × List Nat × Nat :=
  if blkw.batches = [] then
    (.ok (), [], blkw.execution_results, blkw.num_transactions)
  else
    let p := scheduling_phase env blkw prev
    match p.1 with
    | .error e =>
        let tr := if p.2.2 then p.2.1 ++ [Ev.cancelled] else p.2.1
        if is_commit_state_error e then
          (.error .validationFailure, tr, blkw.execution_results,
            blkw.num_transactions)
        else
          (.error e, tr, blkw.execution_results, blkw.num_transactions)
    | .ok _ =>
        let tr := p.2.1 ++ [Ev.finalized, Ev.completed]
        let r := batch_results_loop env prev blkw.batches
          blkw.execution_results blkw.num_transactions none
        match r.1 with
        | .error e => (.error e, tr, r.2.1, r.2.2.1)
        | .ok _ =>
            if r.2.2.2 ≠ some blkw.state_root_hash then
              (.error .validationFailure, tr, r.2.1, r.2.2.1)
            else
              (.ok (), tr, r.2.1, r.2.2.1)

theorem feed_batches_events (env : BatchEnv) (prev rh : Nat) :
    ∀ (pairs : List (Batch × Bool)) (e : Ev),
      e ∈ (feed_batches env prev rh pairs).2 →
      ∃ bid, e = .batchAdded bid := by
  intro pairs
  induction pairs with
  | nil => intro e he; simp [feed_batches] at he
  | cons p rest ih =>
      intro e he
      obtain ⟨b, has_more⟩ := p
      simp only [feed_batches] at he
      rcases hadd : env.add_batch prev b.header_signature
          (if has_more then none else some rh) with e0 | u
      · rw [hadd] at he
        simp at he
      · rw [hadd] at he
        simp only [List.mem_cons] at he
        rcases he with rfl | he
        · exact ⟨b.header_signature, rfl⟩
        · exact ih e he

theorem scheduling_phase_shape (env : BatchEnv) (blkw : BlockW)
    (prev : Nat) :
    ((scheduling_phase env blkw prev).2.1 = [] ∧
      (scheduling_phase env blkw prev).2.2 = false) ∨
    ((scheduling_phase env blkw prev).2.2 = true ∧
      ∃ tl, (scheduling_phase env blkw prev).2.1 =
          Ev.ccsCreated :: Ev.schedCreated :: Ev.executed :: tl ∧
        ∀ e ∈ tl, ∃ bid, e = Ev.batchAdded bid) := by
  unfold scheduling_phase
  cases hc : env.ccs_create with
  | error e => exact Or.inl ⟨rfl, rfl⟩
  | ok u =>
      cases hd : env.check_duplicate_batches with
      | error e => exact Or.inr ⟨rfl, [], rfl, by simp⟩
      | ok u2 =>
          cases ht : env.check_duplicate_transactions with
          | error e => exact Or.inr ⟨rfl, [], rfl, by simp⟩
          | ok u3 =>
              cases hdep : env.check_transaction_dependencies with
              | error e => exact Or.inr ⟨rfl, [], rfl, by simp⟩
              | ok u4 =>
                  cases hla : look_ahead blkw.batches with
                  | error e => exact Or.inr ⟨rfl, [], rfl, by simp⟩
                  | ok pairs =>
                      refine Or.inr ⟨rfl,
                        (feed_batches env prev
                          blkw.state_root_hash pairs).2, rfl, ?_⟩
                      intro e he
                      exact feed_batches_events env prev
                        blkw.state_root_hash pairs e he

theorem scheduling_phase_no_completed (env : BatchEnv) (blkw : BlockW)
    (prev : Nat) :
    Ev.completed ∉ (scheduling_phase env blkw prev).2.1 ∧
    Ev.cancelled ∉ (scheduling_phase env blkw prev).2.1 := by
  rcases scheduling_phase_shape env blkw prev with ⟨h1, _⟩ |
    ⟨_, tl, h1, h2⟩
  · rw [h1]
    simp
  · rw [h1]
    constructor
    · intro hmem
      simp only [List.mem_cons] at hmem
      rcases hmem with h | h | h | hm
      · exact Ev.noConfusion h
      · exact Ev.noConfusion h
      · exact Ev.noConfusion h
      · obtain ⟨bid, hbid⟩ := h2 _ hm
        exact Ev.noConfusion hbid
    · intro hmem
      simp only [List.mem_cons] at hmem
      rcases hmem with h | h | h | hm
      · exact Ev.noConfusion h
      · exact Ev.noConfusion h
      · exact Ev.noConfusion h
      · obtain ⟨bid, hbid⟩ := h2 _ hm
        exact Ev.noConfusion hbid

theorem scheduling_phase_sched_flag (env : BatchEnv) (blkw : BlockW)
    (prev : Nat)
    (h : Ev.schedCreated ∈ (scheduling_phase env blkw prev).2.1) :
    (scheduling_phase env blkw prev).2.2 = true := by
  rcases scheduling_phase_shape env blkw prev with ⟨h1, _⟩ | ⟨h2, _⟩
  · rw [h1] at h
    simp at h
  · exact h2

/-- C4 (amended): after a scheduler has been created, every exception
path that leaves `_validate_batches_in_block` before the scheduler
completes calls `cancel` before propagating (duplicate batch, duplicate
transaction, missing dependency, and unexpected exceptions in the
scheduling phase); but failures detected *after* scheduler completion —
a missing or invalid batch execution result, or a state-root mismatch —
propagate without any `cancel` (`completed` in the trace excludes
`cancelled`). -/
theorem validate_batches_cancel_discipline (env : BatchEnv)
    (blkw : BlockW) (prev : Nat) :
    (∀ e, (validate_batches_in_block env blkw prev).1 = .error e →
      Ev.schedCreated ∈ (validate_batches_in_block env blkw prev).2.1 →
      Ev.completed ∉ (validate_batches_in_block env blkw prev).2.1 →
      Ev.cancelled ∈ (validate_batches_in_block env blkw prev).2.1) ∧
    (Ev.completed ∈ (validate_batches_in_block env blkw prev).2.1 →
      Ev.cancelled ∉ (validate_batches_in_block env blkw prev).2.1) := by
  by_cases hempty : blkw.batches = []
  · constructor
    · intro e h1 h2 h3
      simp [validate_batches_in_block, hempty] at h2
    · intro h
      simp [validate_batches_in_block, hempty] at h
  · have hnc := scheduling_phase_no_completed env blkw prev
    rcases hp : (scheduling_phase env blkw prev).1 with e0 | u
    · -- guarded phase raised
      have htr : (validate_batches_in_block env blkw prev).2.1 =
          (if (scheduling_phase env blkw prev).2.2 = true then
            (scheduling_phase env blkw prev).2.1 ++ [Ev.cancelled]
          else (scheduling_phase env blkw prev).2.1) := by
        simp only [validate_batches_in_block, if_neg hempty, hp]
        split <;> rfl
      constructor
      · intro e h1 h2 h3
        rw [htr] at h2 ⊢
        by_cases hf : (scheduling_phase env blkw prev).2.2 = true
        · rw [if_pos hf]
          exact List.mem_append.mpr (Or.inr (by simp))
        · rw [if_neg hf] at h2
          have := scheduling_phase_sched_flag env blkw prev h2
          exact absurd this hf
      · intro h
        rw [htr] at h
        exfalso
        by_cases hf : (scheduling_phase env blkw prev).2.2 = true
        · rw [if_pos hf] at h
          rcases List.mem_append.mp h with h | h
          · exact hnc.1 h
          · simp at h
        · rw [if_neg hf] at h
          exact hnc.1 h
    · -- guarded phase succeeded: finalize/complete happened
      have htr : (validate_batches_in_block env blkw prev).2.1 =
          (scheduling_phase env blkw prev).2.1 ++
            [Ev.finalized, Ev.completed] := by
        simp only [validate_batches_in_block, if_neg hempty, hp]
        split
        · rfl
        · split <;> rfl
      constructor
      · intro e h1 h2 h3
        exfalso
        rw [htr] at h3
        exact h3 (List.mem_append.mpr (Or.inr (by simp)))
      · intro h
        rw [htr]
        intro hmem
        rcases List.mem_append.mp hmem with hmem | hmem
        · exact hnc.2 hmem
        · simp at hmem

/-- Counterexample to C4 as stated: the claim asserts `cancel` on every
exception path out of `_validate_batches_in_block` after a scheduler
exists, *including* a missing batch execution result.  Concretely: all
commit-state checks pass, the single batch's execution result is
missing, so the function raises `BlockValidationFailure` after
`finalize`/`complete`, with a scheduler created and no `cancel` in the
trace. -/
theorem validate_batches_missing_result_no_cancel :
    (validate_batches_in_block
        ⟨.ok (), .ok (), .ok (), .ok (), fun _ _ _ => .ok (),
          fun _ _ => none, fun _ _ => []⟩
        ⟨1, 0, 1, [⟨5, [6]⟩], 77, .Unknown, [], 0⟩ 9).1 =
      .error .validationFailure ∧
    Ev.schedCreated ∈ (validate_batches_in_block
        ⟨.ok (), .ok (), .ok (), .ok (), fun _ _ _ => .ok (),
          fun _ _ => none, fun _ _ => []⟩
        ⟨1, 0, 1, [⟨5, [6]⟩], 77, .Unknown, [], 0⟩ 9).2.1 ∧
    Ev.cancelled ∉ (validate_batches_in_block
        ⟨.ok (), .ok (), .ok (), .ok (), fun _ _ _ => .ok (),
          fun _ _ => none, fun _ _ => []⟩
        ⟨1, 0, 1, [⟨5, [6]⟩], 77, .Unknown, [], 0⟩ 9).2.1 := by
  decide

/-- Witness for C4 (amended) at a concrete input: a duplicate-batch
failure after scheduler creation does cancel. -/
theorem validate_batches_cancel_discipline_witness :
    Ev.cancelled ∈ (validate_batches_in_block
        ⟨.ok (), .error .dupBatch, .ok (), .ok (), fun _ _ _ => .ok (),
          fun _ _ => none, fun _ _ => []⟩
        ⟨1, 0, 1, [⟨5, [6]⟩], 77, .Unknown, [], 0⟩ 9).2.1 :=
  (validate_batches_cancel_discipline
      ⟨.ok (), .error .dupBatch, .ok (), .ok (), fun _ _ _ => .ok (),
        fun _ _ => none, fun _ _ => []⟩
      ⟨1, 0, 1, [⟨5, [6]⟩], 77, .Unknown, [], 0⟩ 9).1
    .validationFailure (by decide) (by decide) (by decide)

/-- C8: For every block with an empty batch list,
`_validate_batches_in_block` returns successfully with an empty event
trace (so no `ChainCommitState` is constructed and no scheduler is
created) and untouched block fields, and its result does not depend on
the previous state root at all — in particular the declared state root
is never compared against it. -/
theorem validate_batches_empty_block (env : BatchEnv) (blkw : BlockW)
    (prev prev' : Nat) (h : blkw.batches = []) :
    validate_batches_in_block env blkw prev =
      (.ok (), [], blkw.execution_results, blkw.num_transactions) ∧
    validate_batches_in_block env blkw prev =
      validate_batches_in_block env blkw prev' := by
  constructor <;> simp [validate_batches_in_block, h]

/-- Witness for C8 at a concrete empty block and two distinct previous
state roots. -/
theorem validate_batches_empty_block_witness :
    validate_batches_in_block
        ⟨.ok (), .ok (), .ok (), .ok (), fun _ _ _ => .ok (),
          fun _ _ => none, fun _ _ => []⟩
        ⟨1, 0, 1, [], 77, .Unknown, [4], 2⟩ 9 =
      (.ok (), [], [4], 2) ∧
    validate_batches_in_block
        ⟨.ok (), .ok (), .ok (), .ok (), fun _ _ _ => .ok (),
          fun _ _ => none, fun _ _ => []⟩
        ⟨1, 0, 1, [], 77, .Unknown, [4], 2⟩ 9 =
      validate_batches_in_block
        ⟨.ok (), .ok (), .ok (), .ok (), fun _ _ _ => .ok (),
          fun _ _ => none, fun _ _ => []⟩
        ⟨1, 0, 1, [], 77, .Unknown, [4], 2⟩ 123 :=
  validate_batches_empty_block _ _ 9 123 rfl

/-- The accumulated transaction execution results appended for a run of
valid batches, in batch order. -/
def txn_acc (env : BatchEnv) (prev : Nat) : List Batch → List Nat
  | [] => []
  | b :: rest =>
      env.txn_execution_results prev b.header_signature ++
        txn_acc env prev rest

/-- The accumulated transaction count for a run of batches. -/
def txn_count : List Batch → Nat
  | [] => 0
  | b :: rest => b.transactions.length + txn_count rest

/-- Whether `get_batch_execution_result` yields a present, valid result
for this batch (the loop's success condition `batch_result is not None
and batch_result.is_valid`). -/
def valid_batch_result (env : BatchEnv) (prev : Nat) (b : Batch) : Bool :=
  match env.batch_execution_result prev b.header_signature with
  | some r => r.is_valid
  | none => false

theorem feed_batches_ok (env : BatchEnv) (prev rh : Nat)
    (hadd : ∀ bid hint, env.add_batch prev bid hint = .ok ()) :
    ∀ pairs, (feed_batches env prev rh pairs).1 = .ok () := by
  intro pairs
  induction pairs with
  | nil => rfl
  | cons p rest ih =>
      obtain ⟨b, has_more⟩ := p
      simp only [feed_batches, hadd]
      exact ih

theorem scheduling_phase_ok (env : BatchEnv) (blkw : BlockW)
    (prev : Nat) (hne : blkw.batches ≠ [])
    (hccs : env.ccs_create = .ok ())
    (hdb : env.check_duplicate_batches = .ok ())
    (hdt : env.check_duplicate_transactions = .ok ())
    (hdep : env.check_transaction_dependencies = .ok ())
    (hadd : ∀ bid hint, env.add_batch prev bid hint = .ok ()) :
    (scheduling_phase env blkw prev).1 = .ok () := by
  unfold scheduling_phase
  simp only [hccs, hdb, hdt, hdep]
  cases hb : blkw.batches with
  | nil => exact absurd hb hne
  | cons x xs =>
      simp only [look_ahead]
      exact feed_batches_ok env prev blkw.state_root_hash hadd _

theorem batch_results_loop_invalid_head (env : BatchEnv) (prev : Nat)
    {b : Batch} (hbad : valid_batch_result env prev b = false)
    (rest : List Batch) (er : List Nat) (nt : Nat) (sh : Option Nat) :
    batch_results_loop env prev (b :: rest) er nt sh =
      (.error .validationFailure, er, nt, sh) := by
  unfold valid_batch_result at hbad
  rcases hres : env.batch_execution_result prev b.header_signature with
    _ | res
  · simp only [batch_results_loop, hres]
  · rw [hres] at hbad
    change res.is_valid = false at hbad
    simp [batch_results_loop, hres, hbad]

theorem batch_results_loop_prefix (env : BatchEnv) (prev : Nat) :
    ∀ (bs₁ rest : List Batch) (er : List Nat) (nt : Nat)
      (sh : Option Nat),
      (∀ x ∈ bs₁, valid_batch_result env prev x = true) →
      ∃ sh', batch_results_loop env prev (bs₁ ++ rest) er nt sh =
        batch_results_loop env prev rest (er ++ txn_acc env prev bs₁)
          (nt + txn_count bs₁) sh' := by
  intro bs₁
  induction bs₁ with
  | nil =>
      intro rest er nt sh _
      exact ⟨sh, by simp [txn_acc, txn_count]⟩
  | cons x bs ih =>
      intro rest er nt sh hv
      have hx := hv x (List.mem_cons_self _ _)
      unfold valid_batch_result at hx
      rcases hres : env.batch_execution_result prev x.header_signature
        with _ | res
      · rw [hres] at hx
        change false = true at hx
        cases hx
      · rw [hres] at hx
        change res.is_valid = true at hx
        have hstep :
            batch_results_loop env prev ((x :: bs) ++ rest) er nt sh =
              batch_results_loop env prev (bs ++ rest)
                (er ++ env.txn_execution_results prev x.header_signature)
                (nt + x.transactions.length) (some res.state_hash) := by
          simp only [List.cons_append, batch_results_loop, hres,
            if_pos hx]
          rfl
        obtain ⟨sh', hrec⟩ := ih rest
          (er ++ env.txn_execution_results prev x.header_signature)
          (nt + x.transactions.length) (some res.state_hash)
          (fun y hy => hv y (List.mem_cons_of_mem _ hy))
        refine ⟨sh', ?_⟩
        rw [hstep, hrec]
        simp only [txn_acc, txn_count, List.append_assoc,
          Nat.add_assoc]

/-- C9: when `_validate_batches_in_block` raises
`BlockValidationFailure` after scheduler completion — a missing or
invalid batch execution result, or a state-root mismatch — the block is
left partially mutated: the execution results and transaction counts
already accumulated from the earlier valid batches remain appended to
`blkw.execution_results` and `blkw.num_transactions`.  The hypotheses
make the scheduling phase succeed so the result loop is reached; part
one covers a failing batch after a valid prefix `bs₁`, part two the
state-root mismatch with all batches valid. -/
theorem validate_batches_partial_mutation (env : BatchEnv)
    (blkw : BlockW) (prev : Nat) (bs₁ : List Batch) (b : Batch)
    (bs₂ : List Batch)
    (hsplit : blkw.batches = bs₁ ++ b :: bs₂)
    (hccs : env.ccs_create = .ok ())
    (hdb : env.check_duplicate_batches = .ok ())
    (hdt : env.check_duplicate_transactions = .ok ())
    (hdep : env.check_transaction_dependencies = .ok ())
    (hadd : ∀ bid hint, env.add_batch prev bid hint = .ok ()) :
    ((∀ x ∈ bs₁, valid_batch_result env prev x = true) →
      valid_batch_result env prev b = false →
      (validate_batches_in_block env blkw prev).1 =
        .error .validationFailure ∧
      (validate_batches_in_block env blkw prev).2.2.1 =
        blkw.execution_results ++ txn_acc env prev bs₁ ∧
      (validate_batches_in_block env blkw prev).2.2.2 =
        blkw.num_transactions + txn_count bs₁) ∧
    ((∀ x ∈ blkw.batches, valid_batch_result env prev x = true) →
      ∀ e, (validate_batches_in_block env blkw prev).1 = .error e →
        e = .validationFailure ∧
        (validate_batches_in_block env blkw prev).2.2.1 =
          blkw.execution_results ++ txn_acc env prev blkw.batches ∧
        (validate_batches_in_block env blkw prev).2.2.2 =
          blkw.num_transactions + txn_count blkw.batches) := by
  have hne : blkw.batches ≠ [] := by
    rw [hsplit]
    simp
  have hok : (scheduling_phase env blkw prev).1 = .ok () :=
    scheduling_phase_ok env blkw prev hne hccs hdb hdt hdep hadd
  constructor
  · intro hvalid hbad
    obtain ⟨sh', hpre⟩ := batch_results_loop_prefix env prev bs₁
      (b :: bs₂) blkw.execution_results blkw.num_transactions none
      hvalid
    have hloop : batch_results_loop env prev blkw.batches
        blkw.execution_results blkw.num_transactions none =
        (.error .validationFailure,
          blkw.execution_results ++ txn_acc env prev bs₁,
          blkw.num_transactions + txn_count bs₁, sh') := by
      rw [hsplit, hpre,
        batch_results_loop_invalid_head env prev hbad]
    refine ⟨?_, ?_, ?_⟩ <;>
      simp only [validate_batches_in_block, if_neg hne, hok, hloop]
  · intro hallvalid e herr
    obtain ⟨sh', hpre⟩ := batch_results_loop_prefix env prev
      blkw.batches [] blkw.execution_results blkw.num_transactions
      none hallvalid
    rw [List.append_nil] at hpre
    have hloop : batch_results_loop env prev blkw.batches
        blkw.execution_results blkw.num_transactions none =
        (.ok (), blkw.execution_results ++ txn_acc env prev blkw.batches,
          blkw.num_transactions + txn_count blkw.batches, sh') := by
      rw [hpre]
      rfl
    simp only [validate_batches_in_block, if_neg hne, hok, hloop]
      at herr ⊢
    by_cases hsh : sh' ≠ some blkw.state_root_hash
    · simp only [if_pos hsh] at herr ⊢
      simp only [Except.error.injEq] at herr
      refine ⟨herr.symm, ?_, ?_⟩ <;> simp
    · simp only [if_neg hsh] at herr
      exact Except.noConfusion herr

/-- Witness for C9 at a concrete input: batch `5` executes validly
(one transaction result `100`), batch `7`'s execution result is
missing; the failure leaves batch `5`'s results appended. -/
theorem validate_batches_partial_mutation_witness :
    (validate_batches_in_block
        ⟨.ok (), .ok (), .ok (), .ok (), fun _ _ _ => .ok (),
          fun _ bid => if bid = 5 then some ⟨true, 50⟩ else none,
          fun _ bid => if bid = 5 then [100] else []⟩
        ⟨1, 0, 1, [⟨5, [6]⟩, ⟨7, [8, 9]⟩], 77, .Unknown, [1], 3⟩
        9).1 = .error .validationFailure ∧
    (validate_batches_in_block
        ⟨.ok (), .ok (), .ok (), .ok (), fun _ _ _ => .ok (),
          fun _ bid => if bid = 5 then some ⟨true, 50⟩ else none,
          fun _ bid => if bid = 5 then [100] else []⟩
        ⟨1, 0, 1, [⟨5, [6]⟩, ⟨7, [8, 9]⟩], 77, .Unknown, [1], 3⟩
        9).2.2.1 =
      [1] ++ txn_acc
        ⟨.ok (), .ok (), .ok (), .ok (), fun _ _ _ => .ok (),
          fun _ bid => if bid = 5 then some ⟨true, 50⟩ else none,
          fun _ bid => if bid = 5 then [100] else []⟩ 9 [⟨5, [6]⟩] ∧
    (validate_batches_in_block
        ⟨.ok (), .ok (), .ok (), .ok (), fun _ _ _ => .ok (),
          fun _ bid => if bid = 5 then some ⟨true, 50⟩ else none,
          fun _ bid => if bid = 5 then [100] else []⟩
        ⟨1, 0, 1, [⟨5, [6]⟩, ⟨7, [8, 9]⟩], 77, .Unknown, [1], 3⟩
        9).2.2.2 = 3 + txn_count [⟨5, [6]⟩] :=
  (validate_batches_partial_mutation
      ⟨.ok (), .ok (), .ok (), .ok (), fun _ _ _ => .ok (),
        fun _ bid => if bid = 5 then some ⟨true, 50⟩ else none,
        fun _ bid => if bid = 5 then [100] else []⟩
      ⟨1, 0, 1, [⟨5, [6]⟩, ⟨7, [8, 9]⟩], 77, .Unknown, [1], 3⟩
      9 [⟨5, [6]⟩] ⟨7, [8, 9]⟩ [] rfl rfl rfl rfl rfl
      (fun _ _ => rfl)).1 (by decide) (by decide)

/-! ### Single-block validation (`validate_block`)

The permission verifier, consensus module and settings/rules enforcer
are external collaborators (modelled from the spec as oracles); the
batch validator is the embedding above.  The block cache holds, for a
cached identifier, the predecessor's status and state root hash. -/

/-- What `validate_block` reads from the block cache about a
predecessor. -/
structure CachedBlock where
  status : BlockStatus
  state_root_hash : Nat
deriving DecidableEq, Repr

/-- Modelled from the spec: the collaborators of `validate_block` — the
block cache lookup, the permission verifier (per batch signer), the
consensus load/verify step (which may raise unexpectedly, e.g. an
unknown consensus module), and the on-chain rule enforcer. -/
structure ValEnv where
  block_cache : Nat → Option CachedBlock
  is_batch_signer_authorized : Nat → Bool
  consensus_verify : Except PyExc Bool
  enforce_validation_rules : Bool
  batch_env : BatchEnv

/-- `_get_previous_block_state_root`: `INIT_ROOT_KEY` for the null
sentinel predecessor, otherwise the cached predecessor's state root
(`none` models the `KeyError` on a missing predecessor). -/
def get_previous_block_state_root (env : ValEnv) (blkw : BlockW) :
    Option Nat :=
  if blkw.previous_block_id = NULL_BLOCK_IDENTIFIER then
    some INIT_ROOT_KEY
  else
    (env.block_cache blkw.previous_block_id).map
      (fun p => p.state_root_hash)

/-- `_validate_permissions`: non-genesis blocks require every batch
signer to be authorized; genesis passes trivially. -/
def validate_permissions (env : ValEnv) (blkw : BlockW) : Bool :=
  if blkw.block_num ≠ 0 then
    blkw.batches.all
      (fun b => env.is_batch_signer_authorized b.header_signature)
  else true

/-- `_validate_on_chain_rules`: non-genesis blocks consult the rule
enforcer at the previous state; genesis passes. -/
def validate_on_chain_rules (env : ValEnv) (blkw : BlockW) : Bool :=
  if blkw.block_num ≠ 0 then env.enforce_validation_rules else true

/-- The predecessor checks at the top of `validate_block`'s `try`
block: a missing predecessor is tolerated here (`prev_block = None`);
a cached predecessor with status `Invalid` raises
`BlockValidationFailure`, with status `Unknown` raises
`BlockValidationError`. -/
def pred_check (env : ValEnv) (blkw : BlockW) : Except PyExc Unit :=
  match env.block_cache blkw.previous_block_id with
  | none => .ok ()
  | some p =>
      if p.status = .Invalid then .error .validationFailure
      else if p.status = .Unknown then .error .validationError
      else .ok ()

/-- The body of `validate_block`'s `try` block: predecessor checks,
previous state root (missing → `BlockValidationError`), permissions,
consensus verification, on-chain rules, then batch validation, whose
mutations of the block stick even on failure; on success the status is
set to `Valid` (still inside the `try`). -/
def batch_step (env : ValEnv) (blkw : BlockW) (prev_state_root : Nat) :
    Except PyExc Unit × BlockW :=
  let r := validate_batches_in_block env.batch_env blkw prev_state_root
  let blkw1 := { blkw with
    execution_results := r.2.2.1
    num_transactions := r.2.2.2 }
  match r.1 with
  | .error e => (.error e, blkw1)
  | .ok _ => (.ok (), { blkw1 with status := .Valid })

def validate_block_body (env : ValEnv) (blkw : BlockW) :
    Except PyExc Unit × BlockW :=
  match pred_check env blkw with
  | .error e => (.error e, blkw)
  | .ok _ =>
      match get_previous_block_state_root env blkw with
      | none => (.error .validationError, blkw)
      | some prev_state_root =>
          if validate_permissions env blkw = false then
            (.error .validationFailure, blkw)
          else
            match env.consensus_verify with
            | .error e => (.error e, blkw)
            | .ok verified =>
                if verified = false then
                  (.error .validationFailure, blkw)
                else if validate_on_chain_rules env blkw = false then
                  (.error .validationFailure, blkw)
                else
                  batch_step env blkw prev_state_root

/-- The `except` clauses of `validate_block`: on
`BlockValidationFailure` set status `Invalid`; on
`BlockValidationError` set status `Unknown`; any other exception leaves
the status untouched. -/
def wrap_status (b : BlockW) (e : PyExc) : BlockW :=
  match e with
  | .validationFailure => { b with status := .Invalid }
  | .validationError => { b with status := .Unknown }
  | _ => b

/-- `validate_block`: immediate return on `Valid`, immediate
`BlockValidationFailure` on `Invalid`, otherwise the guarded body with
the status-setting exception handlers. -/
def validate_block (env : ValEnv) (blkw : BlockW) :
    Except PyExc Unit × BlockW :=
  if blkw.status = .Valid then (.ok (), blkw)
  else if blkw.status = .Invalid then (.error .validationFailure, blkw)
  else
    match validate_block_body env blkw with
    | (.ok u, b) => (.ok u, b)
    | (.error e, b) => (.error e, wrap_status b e)

theorem batch_step_status (env : ValEnv) (blkw : BlockW)
    (prev_state_root : Nat) :
    ∀ r, batch_step env blkw prev_state_root = r →
      (r.1 = .ok () → r.2.status = .Valid) ∧
      (∀ e, r.1 = .error e → r.2.status = blkw.status) := by
  intro r hr
  unfold batch_step at hr
  dsimp only at hr
  split at hr
  all_goals subst hr
  all_goals refine ⟨fun h1 => ?_, fun e' he => ?_⟩ <;> simp_all

theorem validate_block_body_status (env : ValEnv) (blkw : BlockW) :
    ∀ r, validate_block_body env blkw = r →
      (r.1 = .ok () → r.2.status = .Valid) ∧
      (∀ e, r.1 = .error e → r.2.status = blkw.status) := by
  intro r hr
  unfold validate_block_body at hr
  repeat' split at hr
  all_goals subst hr
  all_goals first
    | exact batch_step_status env blkw _ _ rfl
    | (refine ⟨fun h1 => ?_, fun e' he => ?_⟩ <;> simp_all)

/-- C5: for every block entering `validate_block` with status neither
`Valid` nor `Invalid`: success sets the status to `Valid`; a
`BlockValidationFailure` sets it to `Invalid` and is re-raised (the
result carries the exception); a `BlockValidationError` sets it to
`Unknown` and is re-raised; any other unexpected exception leaves the
status untouched and is re-raised. -/
theorem validate_block_status_transitions (env : ValEnv)
    (blkw : BlockW) (h1 : blkw.status ≠ .Valid)
    (h2 : blkw.status ≠ .Invalid) :
    ((validate_block env blkw).1 = .ok () →
      (validate_block env blkw).2.status = .Valid) ∧
    ((validate_block env blkw).1 = .error .validationFailure →
      (validate_block env blkw).2.status = .Invalid) ∧
    ((validate_block env blkw).1 = .error .validationError →
      (validate_block env blkw).2.status = .Unknown) ∧
    (∀ e, e ≠ .validationFailure → e ≠ .validationError →
      (validate_block env blkw).1 = .error e →
      (validate_block env blkw).2.status = blkw.status) := by
  have hbody := validate_block_body_status env blkw _ rfl
  rcases hb : validate_block_body env blkw with ⟨rr, bb⟩
  rw [hb] at hbody
  have hvb : validate_block env blkw =
      (match (rr, bb) with
       | (.ok u, b) => (.ok u, b)
       | (.error e, b) => (.error e, wrap_status b e)) := by
    simp only [validate_block, if_neg h1, if_neg h2, hb]
  rcases rr with e | u
  · have hstat : bb.status = blkw.status := hbody.2 e rfl
    cases e <;> rw [hvb] <;>
      refine ⟨fun h => ?_, fun h => ?_, fun h => ?_,
        fun e' hne1 hne2 h => ?_⟩ <;>
      simp_all [wrap_status]
  · cases u
    have hstat : bb.status = .Valid := hbody.1 rfl
    rw [hvb]
    refine ⟨fun h => ?_, fun h => ?_, fun h => ?_,
      fun e' hne1 hne2 h => ?_⟩ <;> simp_all

/-- Witness for C5 at a concrete input: a genesis-shaped block (null
predecessor, block number `0`, no batches, status `Unknown`) with a
passing consensus verifier validates successfully and ends `Valid`. -/
theorem validate_block_status_transitions_witness :
    (validate_block
        ⟨fun _ => none, fun _ => true, .ok true, true,
          ⟨.ok (), .ok (), .ok (), .ok (), fun _ _ _ => .ok (),
            fun _ _ => none, fun _ _ => []⟩⟩
        ⟨1, 0, 0, [], 77, .Unknown, [], 0⟩).2.status = .Valid :=
  (validate_block_status_transitions
      ⟨fun _ => none, fun _ => true, .ok true, true,
        ⟨.ok (), .ok (), .ok (), .ok (), fun _ _ _ => .ok (),
          fun _ _ => none, fun _ _ => []⟩⟩
      ⟨1, 0, 0, [], 77, .Unknown, [], 0⟩ (by decide) (by decide)).1
    (by decide)

end BlockValidation
